import Mathlib

/-!
Shallow embedding of the mavgen front-end compiler core
(src/mavgen/src/model.rs and src/mavgen/src/flatten.rs).

Strings are modelled as Lean `String` (a list of Unicode scalar values,
matching Rust `String` for the purposes of these claims).  Rust's
`char::is_whitespace` (the Unicode White_Space property) is embedded
exactly; the reserved-word check composes Rust's full-Unicode
`str::to_lowercase` with membership in an all-ASCII table, and is
embedded exactly through that composition (see `asciiLower?` and
`isReservedWord`).
-/

namespace Mavgen

/-! ### model.rs: Ident -/

/-- `model::Ident` — a validated name token wrapping its text
(`pub struct Ident(String)`). -/
structure Ident where
  text : String
deriving Repr, DecidableEq

/-- The `FORBIDDEN_NAMES` table of `Ident::from_str`
(src/mavgen/src/model.rs lines 165-224), verbatim. -/
def FORBIDDEN_NAMES : List String :=
  ["break", "case", "class", "catch", "const", "continue", "debugger",
   "default", "delete", "do", "else", "export", "extends", "finally",
   "for", "function", "if", "import", "in", "instanceof", "let", "new",
   "return", "super", "switch", "this", "throw", "try", "typeof", "var",
   "void", "while", "with", "yield", "enum", "await", "implements",
   "package", "protected", "static", "interface", "private", "public",
   "abstract", "boolean", "byte", "char", "double", "final", "float",
   "goto", "int", "long", "native", "short", "synchronized", "transient",
   "volatile"]

/-- Rust `char::is_whitespace`: the Unicode White_Space property,
embedded as the exact list of code points. -/
def rustIsWhitespace (c : Char) : Bool :=
  c.toNat ∈ [0x09, 0x0A, 0x0B, 0x0C, 0x0D, 0x20, 0x85, 0xA0, 0x1680,
    0x2000, 0x2001, 0x2002, 0x2003, 0x2004, 0x2005, 0x2006, 0x2007,
    0x2008, 0x2009, 0x200A, 0x2028, 0x2029, 0x202F, 0x205F, 0x3000]

/-- The single ASCII lowercase letter that Rust's full-Unicode
`char::to_lowercase` produces for `c`, if any.  Per UnicodeData.txt and
SpecialCasing.txt, the scalars whose full lowercase is one ASCII letter
are exactly the ASCII letters themselves and U+212A KELVIN SIGN (which
lowercases to `k`); every other scalar's lowercase contains at least
one non-ASCII character (the only multi-character lowercase mapping,
U+0130, emits the non-ASCII U+0307, and the context-dependent Greek
sigma rule of `str::to_lowercase` only ever yields σ or ς). -/
def asciiLower? (c : Char) : Option Char :=
  if 'a' ≤ c ∧ c ≤ 'z' then some c
  else if 'A' ≤ c ∧ c ≤ 'Z' then some (Char.ofNat (c.toNat + 32))
  else if c = '\u212A' then some 'k'
  else none

/-- The reserved-word check of `Ident::from_str`
(`FORBIDDEN_NAMES.contains(&s.to_lowercase().as_str())`).  Every entry
of `FORBIDDEN_NAMES` consists solely of ASCII lowercase letters, so
`s.to_lowercase()` is a member exactly when every scalar of `s` has an
ASCII-letter lowercase (see `asciiLower?`) and the resulting word is in
the table; this embeds Rust's full-Unicode `str::to_lowercase` composed
with the membership test exactly. -/
def isReservedWord (s : String) : Bool :=
  match s.data.mapM asciiLower? with
  | some w => FORBIDDEN_NAMES.contains (String.mk w)
  | none => false

/-- Whether the first character of the string is an ASCII decimal digit
(`matches!(s.chars().next(), Some('0'..='9'))`). -/
def startsWithDigit (s : String) : Bool :=
  match s.data with
  | [] => false
  | c :: _ => decide ('0' ≤ c ∧ c ≤ '9')

/-- `Ident::from_str` (src/mavgen/src/model.rs lines 164-250):
reject empty or `_`, reject a leading decimal digit, reject any
whitespace character, reject (case-insensitively) the reserved words;
otherwise wrap the text unchanged. -/
def identFromStr (s : String) : Option Ident :=
  if s = "" ∨ s = "_" then none
  else if startsWithDigit s then none
  else if s.data.any rustIsWhitespace then none
  else if isReservedWord s then none
  else some ⟨s⟩

/-! ### model.rs: PrimitiveType and FieldType -/

/-- `model::PrimitiveType` — the closed set of scalar wire types. -/
inductive PrimitiveType where
  | Float | Double | Char
  | Int8 | Uint8 | Uint8MavlinkVersion
  | Int16 | Uint16 | Int32 | Uint32 | Int64 | Uint64
deriving Repr, DecidableEq

/-- `model::FieldType` — a bare primitive or `Array(primitive, length)`
with a `u8` length. -/
inductive FieldType where
  | Primitive (t : PrimitiveType)
  | Array (t : PrimitiveType) (len : Nat)
deriving Repr, DecidableEq

/-- The fixed primitive-name table of `PrimitiveType::from_str`
(src/mavgen/src/model.rs lines 266-279). -/
def primTable : List (String × PrimitiveType) :=
  [("float", .Float), ("double", .Double), ("char", .Char),
   ("int8_t", .Int8), ("uint8_t", .Uint8),
   ("uint8_t_mavlink_version", .Uint8MavlinkVersion),
   ("int16_t", .Int16), ("uint16_t", .Uint16),
   ("int32_t", .Int32), ("uint32_t", .Uint32),
   ("int64_t", .Int64), ("uint64_t", .Uint64)]

/-- `PrimitiveType::from_str`: exact string match against the fixed
table. -/
def primFromStr (s : String) : Option PrimitiveType :=
  if s = "float" then some .Float
  else if s = "double" then some .Double
  else if s = "char" then some .Char
  else if s = "int8_t" then some .Int8
  else if s = "uint8_t" then some .Uint8
  else if s = "uint8_t_mavlink_version" then some .Uint8MavlinkVersion
  else if s = "int16_t" then some .Int16
  else if s = "uint16_t" then some .Uint16
  else if s = "int32_t" then some .Int32
  else if s = "uint32_t" then some .Uint32
  else if s = "int64_t" then some .Int64
  else if s = "uint64_t" then some .Uint64
  else none

/-- Rust `str::parse::<u8>()` on a character list: an optional leading
`+`, then one or more ASCII decimal digits whose value fits in `u8`
(Rust rejects on overflow during accumulation, which for an all-digit
string is equivalent to the final value exceeding 255). -/
def parseU8Chars (l : List Char) : Option Nat :=
  let digits := match l with
    | '+' :: rest => rest
    | _ => l
  if digits.isEmpty then none
  else if digits.all (fun c => decide ('0' ≤ c ∧ c ≤ '9')) then
    let v := digits.foldl (fun acc c => acc * 10 + (c.toNat - '0'.toNat)) 0
    if v ≤ 255 then some v else none
  else none

/-- Rust `str::strip_suffix(']')` on a character list. -/
def stripCloseBracket (l : List Char) : Option (List Char) :=
  if l.getLast? = some ']' then some l.dropLast else none

/-- Rust `str::split_once('[')` on a character list: split at the first
occurrence of `[`. -/
def splitOnceOpenBracket : List Char → Option (List Char × List Char)
  | [] => none
  | c :: rest =>
    if c = '[' then some ([], rest)
    else (splitOnceOpenBracket rest).map (fun p => (c :: p.1, p.2))

/-- `FieldType::from_str` (src/mavgen/src/model.rs lines 287-300) on a
character list: if the string ends in `]`, split the rest at the first
`[` into a primitive-type part and a `u8` size part, yielding `Array`;
otherwise parse the whole string as a primitive. -/
def fieldTypeOfChars (l : List Char) : Option FieldType :=
  match stripCloseBracket l with
  | some withoutClosingBracket =>
    match splitOnceOpenBracket withoutClosingBracket with
    | none => none
    | some (typePart, sizePart) =>
      match primFromStr (String.mk typePart) with
      | none => none
      | some typ =>
        match parseU8Chars sizePart with
        | none => none
        | some size => some (.Array typ size)
  | none => (primFromStr l.asString).map .Primitive

/-- `FieldType::from_str` on a string. -/
def fieldTypeFromStr (s : String) : Option FieldType :=
  fieldTypeOfChars s.data

/-! ### model.rs: Enum minimum width -/

/-- `model::RustSizeType`. -/
inductive RustSizeType where
  | U8 | U16 | U32 | U64
deriving Repr, DecidableEq

/-- The number of bits of a `RustSizeType`. -/
def widthBits : RustSizeType → Nat
  | .U8 => 8
  | .U16 => 16
  | .U32 => 32
  | .U64 => 64

/-- `model::Entry` — one enum value (name, optional description and
dev-status elided as they play no role in width inference; `value` is
the `u64` entry value as a natural number). -/
structure MEntry where
  name : Ident
  value : Nat
deriving Repr, DecidableEq

/-- `model::Enum` restricted to the data `min_rust_size` reads. -/
structure MEnum where
  name : Ident
  bitmask : Bool
  entries : List MEntry
deriving Repr, DecidableEq

/-- `Iterator::max` over a list of naturals: `none` on the empty list. -/
def listMax : List Nat → Option Nat
  | [] => none
  | v :: vs => some (vs.foldl max v)

/-- `Enum::min_rust_size` (src/mavgen/src/model.rs lines 135-149):
the smallest unsigned width holding the maximum entry value; `none`
models the `expect` panic on an empty enum. -/
def minRustSize (e : MEnum) : Option RustSizeType :=
  (listMax (e.entries.map MEntry.value)).map fun maxValue =>
    if maxValue ≤ 255 then .U8
    else if maxValue ≤ 65535 then .U16
    else if maxValue ≤ 4294967295 then .U32
    else .U64

/-! ### xml syntax-tree types consumed by flatten.rs

The `xml` module itself is not among the provided sources; its record
shapes are modelled from the spec's input contract (§6) and from the
uses visible in flatten.rs. -/

/-- Modelled from the spec: `xml::DevStatus` (the `xml` module is not
under the provided sources) — deprecation/WIP metadata carried through
unchanged by flattening. -/
inductive XDevStatus where
  | Deprecated (since : String) (replacedBy : String) (description : String)
  | Wip (since : Option String) (description : String)
deriving Repr, DecidableEq

/-- Modelled from the spec: `xml::Entry` — a raw enum entry
(name, raw value, description, dev-status). -/
structure XEntry where
  name : String
  value : Option String
  description : Option String
  devStatus : Option XDevStatus
deriving Repr, DecidableEq

/-- Modelled from the spec: `xml::Enum` — a raw enum declaration. -/
structure XEnum where
  name : String
  bitmask : Option Bool
  description : Option String
  devStatus : Option XDevStatus
  entries : List XEntry
deriving Repr, DecidableEq

/-- Modelled from the spec: `xml::Field` — a raw message field with its
string-typed field type and metadata bundle (condensed to the fields
that distinguish values; flattening copies fields wholesale). -/
structure XField where
  name : String
  type : String
  units : Option String
  description : Option String
deriving Repr, DecidableEq

/-- Modelled from the spec: `xml::Message` — a raw message declaration. -/
structure XMessage where
  name : String
  id : Nat
  devStatus : Option XDevStatus
  description : Option String
  fields : List XField
  extensionFields : List XField
deriving Repr, DecidableEq

/-- Modelled from the spec: `xml::Mavlink` — one parsed definition file:
raw include strings, optional version and dialect bytes, optional enum
and message lists. -/
structure Mavlink where
  rawIncludes : List String
  version : Option Nat
  dialect : Option Nat
  enums : Option (List XEnum)
  messages : Option (List XMessage)
deriving Repr, DecidableEq

/-- `parser::MavlinkFile` — a parsed file together with its normalised
include paths (paths are modelled as strings). -/
structure MavlinkFile where
  mavlink : Mavlink
  normalisedIncludes : List String
deriving Repr, DecidableEq

/-! ### flatten.rs -/

/-- `flatten::MavlinkModule` (src/mavgen/src/flatten.rs lines 11-18). -/
structure MavlinkModule where
  path : String
  version : Option Nat
  dialect : Option Nat
  enums : List XEnum
  messages : List XMessage
deriving Repr, DecidableEq

/-- `flatten::MessageAndEnumCollector` (src/mavgen/src/flatten.rs lines
20-29).  The `enum_index` hash map of the source is an optimisation: it
always maps each enum name present in `enums` to its (unique) index, so
the merge of lines 51-60 is equivalently modelled by `addEnum` below,
which updates the first (and only) enum of that name in place. -/
structure MessageAndEnumCollector where
  messages : List XMessage
  enums : List XEnum
deriving Repr, DecidableEq

/-- The per-enum merge step of `flatten_recursive` (src/mavgen/src/
flatten.rs lines 51-60): if an enum of the same name is already placed,
append the new entries to that enum; otherwise push the enum at the
end. -/
def addEnum : List XEnum → XEnum → List XEnum
  | [], e => [e]
  | e' :: rest, e =>
    if e'.name = e.name then
      { e' with entries := e'.entries ++ e.entries } :: rest
    else
      e' :: addEnum rest e

/-- The non-recursive tail of `flatten_recursive` (src/mavgen/src/
flatten.rs lines 43-61): extend the collector with the file's own
messages, then merge the file's own enums in declared order. -/
def collectFile (col : MessageAndEnumCollector) (m : Mavlink) :
    MessageAndEnumCollector :=
  let col1 := match m.messages with
    | some msgs => { col with messages := col.messages ++ msgs }
    | none => col
  match m.enums with
  | some enums => { col1 with enums := enums.foldl addEnum col1.enums }
  | none => col1

/-- The include loop of `flatten_recursive` (src/mavgen/src/flatten.rs
lines 36-41): look up each include in the resolved map and recurse
(`recurse` is the recursive call, supplied by `flattenRec`). -/
def flattenIncludes (files : String → Option MavlinkFile)
    (recurse : MessageAndEnumCollector → MavlinkFile →
      Option MessageAndEnumCollector) :
    MessageAndEnumCollector → List String →
    Option MessageAndEnumCollector
  | col, [] => some col
  | col, inc :: rest =>
    match files inc with
    | none => none
    | some file =>
      match recurse col file with
      | none => none
      | some col1 => flattenIncludes files recurse col1 rest

/-- `flatten_recursive` (src/mavgen/src/flatten.rs lines 31-62):
recurse into the includes in declared order, then collect the file's
own declarations.  The extra fuel argument bounds the recursion depth
(the Rust function recurses unboundedly; on a cyclic graph it does not
terminate, modelled as `none`); a missing include (`expect` panic) is
also `none`. -/
def flattenRec (files : String → Option MavlinkFile) :
    Nat → MessageAndEnumCollector → MavlinkFile →
    Option MessageAndEnumCollector
  | 0, _, _ => none
  | fuel + 1, col, module =>
    (flattenIncludes files (fun c f => flattenRec files fuel c f) col
        module.normalisedIncludes).map
      (fun c => collectFile c module.mavlink)

/-- `flatten` (src/mavgen/src/flatten.rs lines 64-82): look up the
entry file, run the recursive collector from the empty state, and take
version/dialect from the entry file itself. -/
def flatten (files : String → Option MavlinkFile) (fuel : Nat)
    (normalised : String) : Option MavlinkModule :=
  match files normalised with
  | none => none
  | some module =>
    (flattenRec files fuel ⟨[], []⟩ module).map fun col =>
      { path := normalised
        version := module.mavlink.version
        dialect := module.mavlink.dialect
        enums := col.enums
        messages := col.messages }

/-- Traversal order of a list of include paths, in declared order
(spec-side companion of `specTraversal`; `recurse` is the recursive
call, supplied by `specTraversal`). -/
def specTraversalList (files : String → Option MavlinkFile)
    (recurse : MavlinkFile → Option (List Mavlink)) :
    List String → Option (List Mavlink)
  | [] => some []
  | inc :: rest =>
    match files inc with
    | none => none
    | some file =>
      match recurse file with
      | none => none
      | some l => (specTraversalList files recurse rest).map (fun l2 => l ++ l2)

/-- Specification-side traversal order, for the refinement claims.
Modelled from the spec's words (§4.2): depth-first over the includes in
declared order, each file's includes before the file itself; the result
is the sequence of visited files' syntax trees, with repeats (no
deduplication). -/
def specTraversal (files : String → Option MavlinkFile) :
    Nat → MavlinkFile → Option (List Mavlink)
  | 0, _ => none
  | fuel + 1, module =>
    (specTraversalList files (fun f => specTraversal files fuel f)
        module.normalisedIncludes).map
      (fun l => l ++ [module.mavlink])

/-! ### Concrete inputs used by the claims' witnesses and
counterexamples -/

/-- A one-entry enum with value 300, for the C5 witness. -/
def e300 : MEnum := ⟨⟨"E"⟩, false, [⟨⟨"X"⟩, 300⟩]⟩

/-- Chain scenario (spec §8): A's reopening of `MAV_CMD`. -/
def enumA : XEnum :=
  ⟨"MAV_CMD", none, none, none,
   [⟨"MAV_CMD_DO_AUX_FUNCTION", some "218", none, none⟩]⟩

/-- Chain scenario: B's reopening of `MAV_CMD`. -/
def enumB : XEnum :=
  ⟨"MAV_CMD", none, none, none,
   [⟨"MAV_CMD_NAV_FENCE_POLYGON_VERTEX_INCLUSION", some "5001", none, none⟩]⟩

/-- Chain scenario: C's original `MAV_CMD` with two entries. -/
def enumC : XEnum :=
  ⟨"MAV_CMD", none, none, none,
   [⟨"MAV_CMD_RESET_MPPT", some "40001", none, none⟩,
    ⟨"MAV_CMD_PAYLOAD_CONTROL", some "40002", none, none⟩]⟩

/-- Chain scenario: C's `GSM_MODEM_TYPE`. -/
def enumG : XEnum :=
  ⟨"GSM_MODEM_TYPE", none, none, none,
   [⟨"GSM_MODEM_TYPE_UNKNOWN", some "0", none, none⟩,
    ⟨"GSM_MODEM_TYPE_HUAWEI_E3372", some "1", none, none⟩]⟩

/-- Chain scenario: A's message. -/
def msgA : XMessage :=
  ⟨"SET_MAG_OFFSETS", 151, none, none,
   [⟨"target_system", "uint8_t", none, none⟩], []⟩

/-- Chain scenario: B's message. -/
def msgB : XMessage :=
  ⟨"SYSTEM_TIME", 2, none, none,
   [⟨"time_unix_usec", "uint64_t", some "us", none⟩], []⟩

/-- Chain scenario: C's message. -/
def msgC : XMessage :=
  ⟨"COMMAND_INT_STAMPED", 223, none, none,
   [⟨"utc_time", "uint32_t", none, none⟩], []⟩

/-- Chain scenario: the entry file A (includes B). -/
def chainFileA : MavlinkFile :=
  ⟨⟨["test-2.xml"], some 2, some 1, some [enumA], some [msgA]⟩, ["b"]⟩

/-- Chain scenario: the resolved map for A → B → C. -/
def chainFiles : String → Option MavlinkFile := fun p =>
  if p = "a" then some chainFileA
  else if p = "b" then
    some ⟨⟨["test-3.xml"], some 4, some 3, some [enumB], some [msgB]⟩, ["c"]⟩
  else if p = "c" then
    some ⟨⟨[], some 5, some 4, some [enumC, enumG], some [msgC]⟩, []⟩
  else none

/-- The expected flattening of the chain scenario. -/
def chainModule : MavlinkModule :=
  ⟨"a", some 2, some 1,
   [⟨"MAV_CMD", none, none, none,
     enumC.entries ++ enumB.entries ++ enumA.entries⟩, enumG],
   [msgC, msgB, msgA]⟩

/-- A diamond-shaped resolved map: A includes B and C, each of which
includes D; the four files' contents are arbitrary. -/
def diamondFiles (mA mB mC mD : Mavlink) : String → Option MavlinkFile :=
  fun p =>
    if p = "a" then some ⟨mA, ["b", "c"]⟩
    else if p = "b" then some ⟨mB, ["d"]⟩
    else if p = "c" then some ⟨mC, ["d"]⟩
    else if p = "d" then some ⟨mD, []⟩
    else none

/-- The diamond counterexample's shared message. -/
def dMsg : XMessage := ⟨"D_MSG", 7, none, none, [], []⟩

/-- The diamond counterexample's shared enum. -/
def dEnum : XEnum :=
  ⟨"D_ENUM", none, none, none, [⟨"D_ENTRY", some "1", none, none⟩]⟩

/-- A file with no declarations at all. -/
def emptyMavlink : Mavlink := ⟨[], none, none, none, none⟩

/-- The diamond counterexample's shared file content. -/
def dMavlink : Mavlink := ⟨[], none, none, some [dEnum], some [dMsg]⟩

/-- Two same-named enums declared in one file (C7 counterexample). -/
def dupX1 : XEnum := ⟨"X", none, none, none, [⟨"X_1", some "1", none, none⟩]⟩

/-- Second same-named enum of the C7 counterexample. -/
def dupX2 : XEnum := ⟨"X", none, none, none, [⟨"X_2", some "2", none, none⟩]⟩

/-- A no-include file declaring two same-named enums. -/
def dupFiles : String → Option MavlinkFile := fun p =>
  if p = "solo" then some ⟨⟨[], some 1, some 2, some [dupX1, dupX2], none⟩, []⟩
  else none

/-- A no-include file with distinct enum names (C7 witness). -/
def soloFile : MavlinkFile :=
  ⟨⟨[], some 9, some 8, some [⟨"S", none, none, none, []⟩],
    some [⟨"M", 1, none, none, [], []⟩]⟩, []⟩

/-- Resolved map holding just `soloFile`. -/
def soloFiles : String → Option MavlinkFile := fun p =>
  if p = "s" then some soloFile else none

/-- Entry file for the C8 witness: no version/dialect of its own. -/
def tagFileA : MavlinkFile := ⟨⟨["b.xml"], none, none, none, none⟩, ["b"]⟩

/-- Resolved map for the C8 witness: the include declares version and
dialect, the entry does not. -/
def tagFiles : String → Option MavlinkFile := fun p =>
  if p = "a" then some tagFileA
  else if p = "b" then some ⟨⟨[], some 7, some 6, none, some [dMsg]⟩, []⟩
  else none

/-- HashMap lookup modelled on an association list: the first binding
of the key wins (with unique keys this is the map's lookup function,
independent of the list's order). -/
def lookupPath (p : String) : List (String × MavlinkFile) →
    Option MavlinkFile
  | [] => none
  | (k, v) :: rest => if p = k then some v else lookupPath p rest

/-- `flatten` run against a resolved map represented as an association
list (the HashMap of the source, exposed with an iteration order). -/
def flattenAssoc (l : List (String × MavlinkFile)) (fuel : Nat)
    (entry : String) : Option MavlinkModule :=
  flatten (fun p => lookupPath p l) fuel entry

/-- Files for the C9 witness. -/
def detFileA : MavlinkFile := ⟨⟨["b.xml"], some 1, some 2, none, none⟩, ["b"]⟩

/-- Second file for the C9 witness. -/
def detFileB : MavlinkFile := ⟨⟨[], none, none, some [dEnum], some [dMsg]⟩, []⟩

/-- Enums for the C10 witness. -/
def enumW1 : XEnum := ⟨"A", none, none, none, []⟩

/-- First occurrence of `MAV` for the C10 witness (with metadata). -/
def enumW2 : XEnum :=
  ⟨"MAV", some true, some "first", none,
   [⟨"MAV_1", some "1", none, none⟩]⟩

/-- Later occurrence of `MAV` for the C10 witness (metadata differs). -/
def enumW3 : XEnum :=
  ⟨"MAV", some false, some "second", none,
   [⟨"MAV_2", some "2", none, none⟩]⟩

/-! ### Supporting lemmas: field-type parsing -/

lemma stripCloseBracket_concat (l : List Char) :
    stripCloseBracket (l ++ [']']) = some l := by
  simp [stripCloseBracket, List.getLast?_concat, List.dropLast_concat]

lemma splitOnceOpenBracket_concat :
    ∀ (t sz : List Char), '[' ∉ t →
      splitOnceOpenBracket (t ++ '[' :: sz) = some (t, sz) := by
  intro t
  induction t with
  | nil => intro sz _; simp [splitOnceOpenBracket]
  | cons c ct ih =>
    intro sz h
    have hc : ¬ c = '[' := fun he => h (he ▸ List.mem_cons_self c ct)
    have hct : '[' ∉ ct := fun hm => h (List.mem_cons_of_mem c hm)
    simp [splitOnceOpenBracket, hc, ih sz hct]

lemma fieldTypeOfChars_array (t : List Char) (pt : PrimitiveType)
    (sz : List Char) (n : Nat) (ht : '[' ∉ t)
    (hpt : primFromStr (String.mk t) = some pt)
    (hsz : parseU8Chars sz = some n) :
    fieldTypeOfChars ((t ++ '[' :: sz) ++ [']']) = some (.Array pt n) := by
  simp only [fieldTypeOfChars, stripCloseBracket_concat,
    splitOnceOpenBracket_concat t sz ht, hpt, hsz]

lemma parseU8Chars_le (l : List Char) (n : Nat)
    (h : parseU8Chars l = some n) : n ≤ 255 := by
  unfold parseU8Chars at h
  split at h <;> simp at h <;> omega

lemma fieldType_array_le (s : String) (t : PrimitiveType) (n : Nat)
    (h : fieldTypeFromStr s = some (.Array t n)) : n ≤ 255 := by
  unfold fieldTypeFromStr fieldTypeOfChars at h
  split at h
  next =>
    split at h
    next => simp at h
    next =>
      split at h
      next => simp at h
      next =>
        split at h
        next => simp at h
        next m hm =>
          simp only [Option.some.injEq, FieldType.Array.injEq] at h
          exact h.2 ▸ parseU8Chars_le _ m hm
  next =>
    cases hp : primFromStr s.data.asString with
    | none => rw [hp] at h; simp at h
    | some p => rw [hp] at h; simp at h

set_option maxRecDepth 8000 in
lemma parseU8Chars_repr : ∀ n : Nat, n < 256 →
    parseU8Chars (Nat.repr n).data = some n := by decide

lemma data_append (s t : String) : (s ++ t).data = s.data ++ t.data := by
  cases s; cases t; rfl

/-! ### Supporting lemmas: listMax -/

lemma foldl_max_init (l : List Nat) : ∀ v : Nat, v ≤ l.foldl max v := by
  induction l with
  | nil => intro v; exact le_refl v
  | cons c t ih =>
    intro v
    exact le_trans (le_max_left v c) (ih (max v c))

lemma foldl_max_mem_le (l : List Nat) :
    ∀ (v x : Nat), x ∈ l → x ≤ l.foldl max v := by
  induction l with
  | nil => intro v x hx; cases hx
  | cons c t ih =>
    intro v x hx
    rw [List.foldl_cons]
    rcases List.mem_cons.mp hx with rfl | h
    · exact le_trans (le_max_right v x) (foldl_max_init t (max v x))
    · exact ih (max v c) x h

lemma foldl_max_cases (l : List Nat) :
    ∀ v : Nat, l.foldl max v = v ∨ l.foldl max v ∈ l := by
  induction l with
  | nil => intro v; exact Or.inl rfl
  | cons c t ih =>
    intro v
    rcases ih (max v c) with h | h
    · rcases max_choice v c with hm | hm
      · exact Or.inl (h.trans hm)
      · exact Or.inr (List.mem_cons.mpr (Or.inl (h.trans hm)))
    · exact Or.inr (List.mem_cons.mpr (Or.inr h))

lemma listMax_spec (l : List Nat) (m : Nat) (h : listMax l = some m) :
    m ∈ l ∧ ∀ x ∈ l, x ≤ m := by
  cases l with
  | nil => simp [listMax] at h
  | cons v vs =>
    simp only [listMax, Option.some.injEq] at h
    subst h
    constructor
    · rcases foldl_max_cases vs v with h | h
      · exact List.mem_cons.mpr (Or.inl h)
      · exact List.mem_cons.mpr (Or.inr h)
    · intro x hx
      rcases List.mem_cons.mp hx with h | h
      · exact h ▸ foldl_max_init vs v
      · exact foldl_max_mem_le vs v x h

/-! ### Supporting lemmas: flatten -/

lemma collectFile_messages (col : MessageAndEnumCollector) (m : Mavlink) :
    (collectFile col m).messages = col.messages ++ m.messages.getD [] := by
  cases hm : m.messages <;> cases he : m.enums <;>
    simp [collectFile, hm, he]

lemma collectFile_enums (col : MessageAndEnumCollector) (m : Mavlink) :
    (collectFile col m).enums = (m.enums.getD []).foldl addEnum col.enums := by
  cases hm : m.messages <;> cases he : m.enums <;>
    simp [collectFile, hm, he]

lemma foldl_collectFile_messages (order : List Mavlink) :
    ∀ col : MessageAndEnumCollector,
      (order.foldl collectFile col).messages
        = col.messages
          ++ (order.map (fun m => m.messages.getD [])).flatten := by
  induction order with
  | nil => intro col; simp
  | cons m t ih =>
    intro col
    simp [List.foldl_cons, ih (collectFile col m), collectFile_messages]

lemma foldl_collectFile_enums (order : List Mavlink) :
    ∀ col : MessageAndEnumCollector,
      (order.foldl collectFile col).enums
        = List.foldl addEnum col.enums
            ((order.map (fun m => m.enums.getD [])).flatten) := by
  induction order with
  | nil => intro col; simp
  | cons m t ih =>
    intro col
    simp [List.foldl_cons, ih (collectFile col m), collectFile_enums,
      List.foldl_append]

lemma flattenIncludes_eq_spec (files : String → Option MavlinkFile)
    (fuel : Nat)
    (hrec : ∀ col module, flattenRec files fuel col module
      = (specTraversal files fuel module).map
          (fun l => l.foldl collectFile col)) :
    ∀ (incs : List String) (col : MessageAndEnumCollector),
      flattenIncludes files (fun c f => flattenRec files fuel c f) col incs
        = (specTraversalList files (fun f => specTraversal files fuel f)
            incs).map (fun l => l.foldl collectFile col) := by
  intro incs
  induction incs with
  | nil => intro col; rfl
  | cons inc rest ih =>
    intro col
    cases hf : files inc with
    | none => simp [flattenIncludes, specTraversalList, hf]
    | some file =>
      cases ht : specTraversal files fuel file with
      | none =>
        simp [flattenIncludes, specTraversalList, hf, hrec col file, ht]
      | some l =>
        cases hr : specTraversalList files
            (fun f => specTraversal files fuel f) rest with
        | none =>
          simp [flattenIncludes, specTraversalList, hf, hrec col file, ht,
            ih, hr]
        | some l2 =>
          simp [flattenIncludes, specTraversalList, hf, hrec col file, ht,
            ih, hr, List.foldl_append]

lemma flattenRec_eq_spec (files : String → Option MavlinkFile) :
    ∀ (fuel : Nat) (col : MessageAndEnumCollector) (module : MavlinkFile),
      flattenRec files fuel col module
        = (specTraversal files fuel module).map
            (fun l => l.foldl collectFile col) := by
  intro fuel
  induction fuel with
  | zero => intro col module; rfl
  | succ fuel ih =>
    intro col module
    simp only [flattenRec, specTraversal]
    rw [flattenIncludes_eq_spec files fuel ih]
    cases hr : specTraversalList files (fun f => specTraversal files fuel f)
        module.normalisedIncludes with
    | none => rfl
    | some l => simp [List.foldl_append]

lemma flatten_eq_spec (files : String → Option MavlinkFile) (fuel : Nat)
    (entry : String) (module : MavlinkFile) (mdl : MavlinkModule)
    (hm : files entry = some module)
    (hf : flatten files fuel entry = some mdl) :
    ∃ order, specTraversal files fuel module = some order ∧
      mdl = ⟨entry, module.mavlink.version, module.mavlink.dialect,
        List.foldl addEnum []
          ((order.map (fun m => m.enums.getD [])).flatten),
        (order.map (fun m => m.messages.getD [])).flatten⟩ := by
  unfold flatten at hf
  rw [hm] at hf
  dsimp only at hf
  rw [flattenRec_eq_spec] at hf
  cases ht : specTraversal files fuel module with
  | none => rw [ht] at hf; simp at hf
  | some order =>
    rw [ht] at hf
    simp only [Option.map] at hf
    injection hf with hf
    refine ⟨order, rfl, ?_⟩
    rw [← hf]
    have hmsg := foldl_collectFile_messages order ⟨[], []⟩
    have henu := foldl_collectFile_enums order ⟨[], []⟩
    simp only [List.nil_append] at hmsg henu
    simp [hmsg, henu]

lemma addEnum_not_mem : ∀ (es : List XEnum) (e : XEnum),
    e.name ∉ es.map XEnum.name → addEnum es e = es ++ [e] := by
  intro es e
  induction es with
  | nil => intro _; rfl
  | cons e' rest ih =>
    intro h
    rw [List.map_cons, List.mem_cons] at h
    push_neg at h
    have hne : ¬ e'.name = e.name := fun he => h.1 he.symm
    simp only [addEnum, if_neg hne, ih h.2, List.cons_append]

lemma addEnum_names_mem : ∀ (es : List XEnum) (e : XEnum),
    e.name ∈ es.map XEnum.name →
    (addEnum es e).map XEnum.name = es.map XEnum.name := by
  intro es e
  induction es with
  | nil => intro h; cases h
  | cons e' rest ih =>
    intro h
    rw [List.map_cons] at h
    by_cases he : e'.name = e.name
    · simp [addEnum, he]
    · have h2 : e.name ∈ rest.map XEnum.name := by
        rcases List.mem_cons.mp h with h1 | h1
        · exact absurd h1.symm he
        · exact h1
      simp [addEnum, he, ih h2]

lemma addEnum_found : ∀ (l1 : List XEnum) (E : XEnum) (l2 : List XEnum)
    (e : XEnum), (∀ x ∈ l1, x.name ≠ e.name) → E.name = e.name →
    addEnum (l1 ++ E :: l2) e
      = l1 ++ { E with entries := E.entries ++ e.entries } :: l2 := by
  intro l1
  induction l1 with
  | nil => intro E l2 e _ hE; simp [addEnum, hE]
  | cons x t ih =>
    intro E l2 e hl hE
    have hx : ¬ x.name = e.name := hl x (List.mem_cons_self x t)
    simp only [List.cons_append, addEnum, if_neg hx]
    exact congrArg (x :: ·)
      (ih E l2 e (fun y hy => hl y (List.mem_cons_of_mem x hy)) hE)

lemma foldl_addEnum_nodup : ∀ (l acc : List XEnum),
    ((acc ++ l).map XEnum.name).Nodup →
    List.foldl addEnum acc l = acc ++ l := by
  intro l
  induction l with
  | nil => intro acc _; simp
  | cons e t ih =>
    intro acc hnd
    have hnd' := hnd
    rw [List.map_append, List.map_cons, List.nodup_append] at hnd'
    have hmem : e.name ∉ acc.map XEnum.name := fun hin =>
      hnd'.2.2 hin (List.mem_cons_self _ _)
    rw [List.foldl_cons, addEnum_not_mem acc e hmem,
      ih (acc ++ [e]) (by simpa [List.append_assoc] using hnd)]
    simp

lemma perm_lookupPath : ∀ {l1 l2 : List (String × MavlinkFile)},
    l1.Perm l2 → (l1.map Prod.fst).Nodup →
    ∀ p, lookupPath p l1 = lookupPath p l2 := by
  intro l1 l2 h
  induction h with
  | nil => intro _ _; rfl
  | cons x hp ih =>
    intro nd p
    obtain ⟨xk, xv⟩ := x
    rw [List.map_cons, List.nodup_cons] at nd
    by_cases hk : p = xk <;> simp [lookupPath, hk, ih nd.2 p]
  | swap x y l =>
    intro nd p
    obtain ⟨xk, xv⟩ := x
    obtain ⟨yk, yv⟩ := y
    simp only [List.map_cons, List.nodup_cons, List.mem_cons] at nd
    have hxy : ¬ yk = xk := fun he => nd.1 (Or.inl he)
    by_cases hpy : p = yk <;> by_cases hpx : p = xk
    · exact absurd (hpy.symm.trans hpx) hxy
    · simp [lookupPath, hpy, hpx, hxy]
    · simp [lookupPath, hpy, hpx, hxy, Ne.symm hxy]
    · simp [lookupPath, hpy, hpx]
  | trans h1 h2 ih1 ih2 =>
    intro nd p
    have nd2 := ((h1.map Prod.fst).nodup_iff).mp nd
    rw [ih1 nd p, ih2 nd2 p]

/-! ### Claim C3: identifier parsing -/

/-- C3: parsing a string as an Identifier fails for the empty string,
for the sole token `_`, for a string whose first character is a decimal
digit, for a string containing a whitespace character, and for a string
that case-insensitively equals a reserved word; every other string
parses successfully and round-trips to the same text. -/
theorem ident_parse_spec :
    identFromStr "" = none ∧
    identFromStr "_" = none ∧
    (∀ s : String, startsWithDigit s = true → identFromStr s = none) ∧
    (∀ s : String, s.data.any rustIsWhitespace = true →
      identFromStr s = none) ∧
    (∀ s : String, isReservedWord s = true → identFromStr s = none) ∧
    (∀ s : String, s ≠ "" → s ≠ "_" → startsWithDigit s = false →
      s.data.any rustIsWhitespace = false →
      isReservedWord s = false →
      identFromStr s = some ⟨s⟩) := by
  refine ⟨rfl, rfl, ?_, ?_, ?_, ?_⟩
  · intro s h; simp [identFromStr, h]
  · intro s h; simp [identFromStr, h]
  · intro s h; simp [identFromStr, h]
  · intro s h1 h2 h3 h4 h5
    simp [identFromStr, h1, h2, h3, h4, h5]

/-- Witness for `ident_parse_spec` at concrete inputs; the last
input ends in U+212A KELVIN SIGN, whose lowercase is `k`, so the
string is case-insensitively equal to the reserved `"break"`. -/
theorem ident_parse_spec_witness :
    identFromStr "HELLO" = some ⟨"HELLO"⟩ ∧
    identFromStr "9turbofish" = none ∧
    identFromStr "some space" = none ∧
    identFromStr "Break" = none ∧
    identFromStr "brea\u212A" = none :=
  ⟨ident_parse_spec.2.2.2.2.2 "HELLO" (by decide) (by decide) (by decide)
      (by decide) (by decide),
   ident_parse_spec.2.2.1 "9turbofish" (by decide),
   ident_parse_spec.2.2.2.1 "some space" (by decide),
   ident_parse_spec.2.2.2.2.1 "Break" (by decide),
   ident_parse_spec.2.2.2.2.1 "brea\u212A" (by decide)⟩

/-! ### Claim C4: field-type parsing -/

set_option maxHeartbeats 2000000 in
/-- C4: every primitive name in the fixed table parses to its tag, bare
or with a bracketed length `[n]` for every `n` in the u8 range; unknown
names (including case variants), malformed brackets, non-numeric or
out-of-range bracket content, and nested brackets all fail. -/
theorem field_type_parse_spec :
    (∀ p ∈ primTable, primFromStr p.1 = some p.2 ∧
      fieldTypeFromStr p.1 = some (.Primitive p.2)) ∧
    (∀ p ∈ primTable, ∀ n : Nat, n ≤ 255 →
      fieldTypeFromStr (p.1 ++ "[" ++ Nat.repr n ++ "]") =
        some (.Array p.2 n)) ∧
    (∀ s : String, s ∉ primTable.map Prod.fst → primFromStr s = none) ∧
    fieldTypeFromStr "INT8_T" = none ∧
    fieldTypeFromStr "int16_t[9][10]" = none ∧
    fieldTypeFromStr "int16_t[300]" = none ∧
    fieldTypeFromStr "int16_t[abc]" = none ∧
    fieldTypeFromStr "int16_t[]" = none ∧
    fieldTypeFromStr "int16_t[5" = none ∧
    fieldTypeFromStr "int16_t]" = none := by
  refine ⟨by decide, ?_, ?_, by decide, by decide, by decide, by decide,
    by decide, by decide, by decide⟩
  · intro p hp n hn
    have hbr := (show ∀ q ∈ primTable, '[' ∉ q.1.data ∧
        primFromStr q.1 = some q.2 by decide) p hp
    have harr := fieldTypeOfChars_array p.1.data p.2 (Nat.repr n).data n
      hbr.1 hbr.2 (parseU8Chars_repr n (by omega))
    have hopen : "[".data = ['['] := rfl
    have hclose : "]".data = [']'] := rfl
    have hdata : (p.1 ++ "[" ++ Nat.repr n ++ "]").data
        = (p.1.data ++ '[' :: (Nat.repr n).data) ++ [']'] := by
      simp [data_append, hopen, hclose]
    unfold fieldTypeFromStr
    rw [hdata]
    exact harr
  · intro s hs
    unfold primFromStr
    split_ifs <;> first
      | rfl
      | (subst_vars; simp [primTable] at hs)

/-- Witness for `field_type_parse_spec` at concrete inputs. -/
theorem field_type_parse_spec_witness :
    primFromStr "uint16_t" = some .Uint16 ∧
    fieldTypeFromStr ("uint16_t" ++ "[" ++ Nat.repr 7 ++ "]") =
      some (.Array .Uint16 7) ∧
    primFromStr "not_found" = none :=
  ⟨(field_type_parse_spec.1 ("uint16_t", .Uint16) (by decide)).1,
   field_type_parse_spec.2.1 ("uint16_t", .Uint16) (by decide) 7 (by decide),
   field_type_parse_spec.2.2.1 "not_found" (by decide)⟩

/-! ### Claim C5: enum minimum storage width -/

/-- C5: for a non-empty enum (with u64 entry values) the computed width
is the least of 8/16/32/64 bits whose unsigned range holds the maximum
entry value, with the transitions exactly at 255/65535/4294967295, and
the result depends only on the entry values. -/
theorem enum_min_width_spec :
    (∀ e : MEnum, e.entries ≠ [] →
      (∀ en ∈ e.entries, en.value ≤ 2 ^ 64 - 1) →
      ∃ m w, listMax (e.entries.map MEntry.value) = some m ∧
        minRustSize e = some w ∧
        m ≤ 2 ^ widthBits w - 1 ∧
        ∀ b ∈ [8, 16, 32, 64], m ≤ 2 ^ b - 1 → widthBits w ≤ b) ∧
    (∀ (e : MEnum) (m : Nat),
      listMax (e.entries.map MEntry.value) = some m →
      (m ≤ 255 → minRustSize e = some .U8) ∧
      (256 ≤ m → m ≤ 65535 → minRustSize e = some .U16) ∧
      (65536 ≤ m → m ≤ 4294967295 → minRustSize e = some .U32) ∧
      (4294967296 ≤ m → minRustSize e = some .U64)) ∧
    (∀ e1 e2 : MEnum,
      e1.entries.map MEntry.value = e2.entries.map MEntry.value →
      minRustSize e1 = minRustSize e2) := by
  refine ⟨?_, ?_, ?_⟩
  · intro e hne hbound
    cases hl : listMax (e.entries.map MEntry.value) with
    | none =>
      exfalso
      cases hes : e.entries with
      | nil => exact hne hes
      | cons a t => rw [hes] at hl; simp [listMax] at hl
    | some m =>
      have hmem := listMax_spec _ m hl
      have hm64 : m ≤ 2 ^ 64 - 1 := by
        rcases List.mem_map.mp hmem.1 with ⟨en, hen, hv⟩
        exact hv ▸ hbound en hen
      have hw : minRustSize e =
          some (if m ≤ 255 then .U8 else if m ≤ 65535 then .U16
            else if m ≤ 4294967295 then .U32 else .U64) := by
        unfold minRustSize; rw [hl]; rfl
      by_cases h8 : m ≤ 255
      · refine ⟨m, .U8, rfl, by rw [hw]; simp [h8],
          by simpa [widthBits] using h8, ?_⟩
        intro b hb _
        fin_cases hb <;> simp [widthBits]
      · by_cases h16 : m ≤ 65535
        · refine ⟨m, .U16, rfl, by rw [hw]; simp [h8, h16],
            by simpa [widthBits] using h16, ?_⟩
          intro b hb hble
          fin_cases hb <;> simp [widthBits] at hble ⊢ <;> omega
        · by_cases h32 : m ≤ 4294967295
          · refine ⟨m, .U32, rfl, by rw [hw]; simp [h8, h16, h32],
              by simpa [widthBits] using h32, ?_⟩
            intro b hb hble
            fin_cases hb <;> simp [widthBits] at hble ⊢ <;> omega
          · refine ⟨m, .U64, rfl, by rw [hw]; simp [h8, h16, h32],
              by simpa [widthBits] using hm64, ?_⟩
            intro b hb hble
            fin_cases hb <;> simp [widthBits] at hble ⊢ <;> omega
  · intro e m h
    have hw : minRustSize e =
        some (if m ≤ 255 then .U8 else if m ≤ 65535 then .U16
          else if m ≤ 4294967295 then .U32 else .U64) := by
      unfold minRustSize; rw [h]; rfl
    refine ⟨fun h1 => ?_, fun h1 h2 => ?_, fun h1 h2 => ?_, fun h1 => ?_⟩
    · rw [hw]; simp [h1]
    · rw [hw]; rw [if_neg (by omega), if_pos (by omega)]
    · rw [hw]; rw [if_neg (by omega), if_neg (by omega), if_pos (by omega)]
    · rw [hw]
      rw [if_neg (by omega), if_neg (by omega), if_neg (by omega)]
  · intro e1 e2 h
    unfold minRustSize
    rw [h]

/-- Witness for `enum_min_width_spec`: the value 300 needs 16 bits. -/
theorem enum_min_width_spec_witness : minRustSize e300 = some .U16 :=
  ((enum_min_width_spec.2.1 e300 300 (by decide)).2.1) (by decide) (by decide)

/-! ### Claim C6: array length bound -/

/-- C6 counterexample: a bracket length of 0 is accepted by the parser
(the repository's own test asserts this), contradicting the claim that
lengths below 1 are rejected at parse time. -/
theorem array_len_zero_counterexample :
    fieldTypeFromStr "float[0]" = some (.Array .Float 0) := by decide

/-- C6 (amended): an array FieldType's parsed length is at most 255 (the
bracket content is parsed as a u8), so lengths above 255 are rejected at
parse time; a length of 0 is accepted. -/
theorem array_len_bound :
    (∀ (s : String) (t : PrimitiveType) (n : Nat),
      fieldTypeFromStr s = some (.Array t n) → n ≤ 255) ∧
    fieldTypeFromStr "float[0]" = some (.Array .Float 0) ∧
    fieldTypeFromStr "float[255]" = some (.Array .Float 255) ∧
    fieldTypeFromStr "float[256]" = none :=
  ⟨fieldType_array_le, by decide, by decide, by decide⟩

/-- Witness for `array_len_bound` at a concrete parsed array type. -/
theorem array_len_bound_witness : (3 : Nat) ≤ 255 :=
  array_len_bound.1 "char[3]" .Char 3 (by decide)

/-! ### Claim C1: depth-first flattening with enum merge -/

/-- C1: flattening visits the include graph depth-first, each file's
includes (in declared order) before its own declarations; messages are
concatenated in that traversal order with no deduplication, and enums
are merged by name — the first occurrence fixes the position, later
occurrences only append their entries; in the A→B→C chain scenario,
`MAV_CMD` holds C's entries, then B's, then A's, and the message order
is C's, B's, A's. -/
theorem flatten_dfs_merge :
    (∀ (files : String → Option MavlinkFile) (fuel : Nat) (entry : String)
        (module : MavlinkFile) (mdl : MavlinkModule),
      files entry = some module → flatten files fuel entry = some mdl →
      ∃ order, specTraversal files fuel module = some order ∧
        mdl.messages = (order.map (fun m => m.messages.getD [])).flatten ∧
        mdl.enums = List.foldl addEnum []
          ((order.map (fun m => m.enums.getD [])).flatten)) ∧
    (∀ (es : List XEnum) (e : XEnum), e.name ∈ es.map XEnum.name →
      (addEnum es e).map XEnum.name = es.map XEnum.name) ∧
    (∀ (es : List XEnum) (e : XEnum), e.name ∉ es.map XEnum.name →
      addEnum es e = es ++ [e]) ∧
    (flatten chainFiles 4 "a").map MavlinkModule.messages
      = some [msgC, msgB, msgA] ∧
    (flatten chainFiles 4 "a").map MavlinkModule.enums
      = some [⟨"MAV_CMD", none, none, none,
          enumC.entries ++ enumB.entries ++ enumA.entries⟩, enumG] := by
  refine ⟨?_, addEnum_names_mem, addEnum_not_mem, by decide, by decide⟩
  intro files fuel entry module mdl hm hf
  rcases flatten_eq_spec files fuel entry module mdl hm hf with
    ⟨order, ho, hmod⟩
  exact ⟨order, ho, by rw [hmod], by rw [hmod]⟩

/-- Witness for `flatten_dfs_merge` on the concrete A→B→C chain. -/
theorem flatten_dfs_merge_witness :
    ∃ order, specTraversal chainFiles 4 chainFileA = some order ∧
      chainModule.messages
        = (order.map (fun m => m.messages.getD [])).flatten ∧
      chainModule.enums = List.foldl addEnum []
        ((order.map (fun m => m.enums.getD [])).flatten) :=
  flatten_dfs_merge.1 chainFiles 4 "a" chainFileA chainModule
    (by decide) (by decide)

/-! ### Claim C2: diamond dependency -/

/-- C2 counterexample: in a diamond (A includes B and C, each of which
includes D), flattening A contributes D's message twice and D's enum
entries twice — not exactly once as claimed (there is no visited-set in
`flatten_recursive`). -/
theorem flatten_diamond_counterexample :
    (flatten (diamondFiles emptyMavlink emptyMavlink emptyMavlink dMavlink)
        4 "a").map MavlinkModule.messages = some [dMsg, dMsg] ∧
    (flatten (diamondFiles emptyMavlink emptyMavlink emptyMavlink dMavlink)
        4 "a").map MavlinkModule.enums
      = some [⟨"D_ENUM", none, none, none,
          dEnum.entries ++ dEnum.entries⟩] := by decide

/-- C2 (amended): a file reachable along two include paths contributes
its messages and its enum entries once per path (so twice in a
diamond); only the enum-name slot is deduplicated — an enum name keeps
the position of its first depth-first leftmost discovery while
accumulating the entries of every visit. -/
theorem flatten_diamond_per_visit :
    (∀ mA mB mC mD : Mavlink,
      flatten (diamondFiles mA mB mC mD) 4 "a"
        = some ⟨"a", mA.version, mA.dialect,
            List.foldl addEnum []
              (mD.enums.getD [] ++ (mB.enums.getD [] ++ (mD.enums.getD []
                ++ (mC.enums.getD [] ++ mA.enums.getD [])))),
            mD.messages.getD [] ++ (mB.messages.getD []
              ++ (mD.messages.getD [] ++ (mC.messages.getD []
                ++ mA.messages.getD [])))⟩) ∧
    (∀ (es : List XEnum) (e : XEnum),
      (addEnum es e).map XEnum.name
        = if e.name ∈ es.map XEnum.name then es.map XEnum.name
          else es.map XEnum.name ++ [e.name]) := by
  constructor
  · intro mA mB mC mD
    have hm : diamondFiles mA mB mC mD "a" = some ⟨mA, ["b", "c"]⟩ := rfl
    have ht : specTraversal (diamondFiles mA mB mC mD) 4 ⟨mA, ["b", "c"]⟩
        = some [mD, mB, mD, mC, mA] := rfl
    unfold flatten
    rw [hm]
    dsimp only
    rw [flattenRec_eq_spec, ht]
    simp [collectFile_messages, collectFile_enums]
  · intro es e
    by_cases h : e.name ∈ es.map XEnum.name
    · rw [if_pos h, addEnum_names_mem es e h]
    · rw [if_neg h, addEnum_not_mem es e h]; simp

/-! ### Claim C7: flattening a single file -/

/-- C7 counterexample: a no-include file declaring two enums with the
same name does not come out unchanged — the two declarations are merged
into a single enum. -/
theorem flatten_single_file_counterexample :
    (flatten dupFiles 1 "solo").map MavlinkModule.enums
      = some [⟨"X", none, none, none, dupX1.entries ++ dupX2.entries⟩] ∧
    [(⟨"X", none, none, none, dupX1.entries ++ dupX2.entries⟩ : XEnum)]
      ≠ [dupX1, dupX2] := by decide

/-- C7 (amended): flattening a file with no includes yields exactly its
own version, dialect and messages — and its own enums unchanged
provided the file's enum names are pairwise distinct (same-named enums
within one file are merged like cross-file re-openings). -/
theorem flatten_single_file :
    ∀ (files : String → Option MavlinkFile) (fuel : Nat) (entry : String)
      (module : MavlinkFile),
      files entry = some module →
      module.normalisedIncludes = [] →
      ((module.mavlink.enums.getD []).map XEnum.name).Nodup →
      flatten files (fuel + 1) entry
        = some ⟨entry, module.mavlink.version, module.mavlink.dialect,
            module.mavlink.enums.getD [],
            module.mavlink.messages.getD []⟩ := by
  intro files fuel entry module hm hinc hnd
  unfold flatten
  rw [hm]
  dsimp only
  simp only [flattenRec, hinc, flattenIncludes, Option.map]
  have hmsg := collectFile_messages ⟨[], []⟩ module.mavlink
  have henu := collectFile_enums ⟨[], []⟩ module.mavlink
  simp only [List.nil_append] at hmsg
  rw [foldl_addEnum_nodup _ [] (by simpa using hnd)] at henu
  simp only [List.nil_append] at henu
  simp [hmsg, henu]

/-- Witness for `flatten_single_file` on a concrete no-include file. -/
theorem flatten_single_file_witness :
    flatten soloFiles 1 "s"
      = some ⟨"s", soloFile.mavlink.version, soloFile.mavlink.dialect,
          soloFile.mavlink.enums.getD [],
          soloFile.mavlink.messages.getD []⟩ :=
  flatten_single_file soloFiles 0 "s" soloFile (by decide) (by decide)
    (by decide)

/-! ### Claim C8: version and dialect come from the entry file -/

/-- C8: the flattened module's version and dialect tags equal the entry
file's own; version/dialect of included files never affect them. -/
theorem flatten_entry_tags :
    ∀ (files : String → Option MavlinkFile) (fuel : Nat) (entry : String)
      (module : MavlinkFile) (mdl : MavlinkModule),
      files entry = some module → flatten files fuel entry = some mdl →
      mdl.version = module.mavlink.version ∧
      mdl.dialect = module.mavlink.dialect := by
  intro files fuel entry module mdl hm hf
  unfold flatten at hf
  rw [hm] at hf
  dsimp only at hf
  cases hr : flattenRec files fuel ⟨[], []⟩ module with
  | none => rw [hr] at hf; simp at hf
  | some col =>
    rw [hr] at hf
    simp only [Option.map] at hf
    injection hf with hf
    exact ⟨by rw [← hf], by rw [← hf]⟩

/-- Witness for `flatten_entry_tags`: the entry declares no version or
dialect, the included file declares both; the output has none. -/
theorem flatten_entry_tags_witness :
    (⟨"a", none, none, [], [dMsg]⟩ : MavlinkModule).version
        = tagFileA.mavlink.version ∧
    (⟨"a", none, none, [], [dMsg]⟩ : MavlinkModule).dialect
        = tagFileA.mavlink.dialect :=
  flatten_entry_tags tagFiles 2 "a" tagFileA ⟨"a", none, none, [], [dMsg]⟩
    (by decide) (by decide)

/-! ### Claim C9: flattening is deterministic in the map order -/

/-- C9: flattening depends on the resolved map only through its lookup
function: two association lists that are permutations of each other
(with unique keys, i.e. the same hash map under different iteration
orders) flatten identically for every fuel and entry. -/
theorem flatten_map_order_independent :
    ∀ (l1 l2 : List (String × MavlinkFile)), l1.Perm l2 →
      (l1.map Prod.fst).Nodup →
      ∀ (fuel : Nat) (entry : String),
        flattenAssoc l1 fuel entry = flattenAssoc l2 fuel entry := by
  intro l1 l2 h nd fuel entry
  unfold flattenAssoc
  have he : (fun p => lookupPath p l1) = (fun p => lookupPath p l2) :=
    funext (fun p => perm_lookupPath h nd p)
  rw [he]

/-- Witness for `flatten_map_order_independent` on a two-entry map
given in both orders. -/
theorem flatten_map_order_independent_witness :
    flattenAssoc [("a", detFileA), ("b", detFileB)] 3 "a"
      = flattenAssoc [("b", detFileB), ("a", detFileA)] 3 "a" :=
  flatten_map_order_independent [("a", detFileA), ("b", detFileB)]
    [("b", detFileB), ("a", detFileA)]
    (List.Perm.swap ("b", detFileB) ("a", detFileA) []) (by decide) 3 "a"

/-! ### Claim C10: merge keeps the first occurrence's metadata -/

/-- C10: when a later occurrence of an already-seen enum name is
merged, only its entries are appended; the merged enum's name, bitmask,
description and dev-status are exactly those of the first occurrence
already in the collector. -/
theorem merge_keeps_first_metadata :
    ∀ (l1 : List XEnum) (E : XEnum) (l2 : List XEnum) (e : XEnum),
      (∀ x ∈ l1, x.name ≠ e.name) → E.name = e.name →
      addEnum (l1 ++ E :: l2) e
        = l1 ++ (⟨E.name, E.bitmask, E.description, E.devStatus,
            E.entries ++ e.entries⟩ : XEnum) :: l2 := by
  intro l1 E l2 e h1 h2
  rw [addEnum_found l1 E l2 e h1 h2]

/-- Witness for `merge_keeps_first_metadata`: reopening `MAV` appends
entries to the placed enum and keeps its bitmask and description. -/
theorem merge_keeps_first_metadata_witness :
    addEnum ([enumW1] ++ enumW2 :: []) enumW3
      = [enumW1] ++ (⟨enumW2.name, enumW2.bitmask, enumW2.description,
          enumW2.devStatus, enumW2.entries ++ enumW3.entries⟩ : XEnum)
        :: [] :=
  merge_keeps_first_metadata [enumW1] enumW2 [] enumW3 (by decide)
    (by decide)

end Mavgen
